import Mathlib

/-!
# Verification of the financials-parser wizard core

Shallow embedding of the React wizard state and the Step 1-3 helpers of
the financials-parser repository, with theorems settling the frozen
claims about correction handling, balance checking, flag presentation,
sheet-type detection and rule merging.

Numeric values are modelled as exact rationals (`ℚ`); JS records
(`Record<string, number | null>`) are modelled as association lists
whose lookup distinguishes an absent key (`none`) from a key holding
`null` (`some none`).
-/

namespace FinParse

/-- `Record<string, number | null>`: ordered key/value pairs, first
occurrence of a key wins on lookup (JS object keys are unique; the
first-occurrence convention makes the embedding total on all lists). -/
abbrev ValueMap := List (String × Option ℚ)

/-- JS property read `m[k]`: `none` models `undefined` (key absent),
`some none` models a stored `null`. -/
def lookupVal (m : ValueMap) (k : String) : Option (Option ℚ) :=
  match m with
  | [] => none
  | (k', v) :: rest => if k' == k then some v else lookupVal rest k

/-- JS property write `m[k] = v`: overwrite the existing entry in place,
otherwise add the key at the end (JS object insertion order). -/
def setVal (m : ValueMap) (k : String) (v : Option ℚ) : ValueMap :=
  match m with
  | [] => [(k, v)]
  | (k', v') :: rest =>
    if k' == k then (k', v) :: rest else (k', v') :: setVal rest k v

theorem lookupVal_setVal_self (m : ValueMap) (k : String) (v : Option ℚ) :
    lookupVal (setVal m k v) k = some v := by
  induction m with
  | nil => simp [setVal, lookupVal]
  | cons p rest ih =>
    obtain ⟨k', v'⟩ := p
    by_cases h : k' == k <;> simp [setVal, lookupVal, h, ih]

theorem lookupVal_setVal_other (m : ValueMap) {k k' : String} (v : Option ℚ)
    (hne : k ≠ k') : lookupVal (setVal m k v) k' = lookupVal m k' := by
  induction m with
  | nil => simp [setVal, lookupVal, hne]
  | cons p rest ih =>
    obtain ⟨k0, v0⟩ := p
    by_cases h : k0 == k
    · have hk0 : k0 = k := by simpa using h
      subst hk0
      simp [setVal, lookupVal, h, beq_iff_eq, hne]
    · by_cases h' : k0 == k' <;> simp [setVal, lookupVal, h, h', ih]

/-! ## Data model (src/frontend/src/types/index.ts) -/

/-- `Correction['tag']` union type. -/
inductive CorrectionTag where
  | one_off_error
  | company_specific
  | general_fix
deriving DecidableEq, Repr

/-- `Correction` interface. `reasoning?` is an optional property. -/
structure Correction where
  fieldName : String
  originalValue : ℚ
  correctedValue : ℚ
  reasoning : Option String
  tag : CorrectionTag
  timestamp : String
deriving DecidableEq, Repr

/-- `ValidationCheck` interface; `status` is the `'PASS' | 'FAIL'` union,
modelled as a Bool that is `true` for `'PASS'`. -/
structure ValidationCheck where
  checkName : String
  passes : Bool
  details : String
deriving DecidableEq, Repr

/-- `Layer2Result` interface. -/
structure Layer2Result where
  statementType : String
  values : ValueMap
  reasoning : List (String × String)
  validation : List (String × ValidationCheck)
  flaggedFields : List String
  fieldValidations : List (String × List String)
deriving DecidableEq, Repr

/-- `Layer1Result` interface. -/
structure Layer1Result where
  lineItems : List (String × ℚ)
  sourceScaling : String
  columnIdentified : String
deriving DecidableEq, Repr

/-- `TemplateSection` interface. -/
structure TemplateSection where
  header : Option String
  fields : List String
deriving DecidableEq, Repr

/-- `WizardState` interface. The browser `File` object is opaque to the
wizard logic and is modelled by its identity as a string handle. -/
structure WizardState where
  companyName : String
  companyId : Option Int
  reportingPeriod : String
  sessionId : Option String
  uploadedFile : Option String
  sheetNames : List String
  workbookUrl : Option String
  layer1Results : List (String × Layer1Result)
  step1Approved : Bool
  layer2Results : List (String × Layer2Result)
  corrections : List Correction
  step2Approved : Bool
  currentStep : Nat
  activeSheetTab : String
  selectedCell : Option String
  sidePanelOpen : Bool
deriving DecidableEq, Repr

/-- `defaultState` in src/frontend/src/hooks/useWizardState.ts. -/
def defaultState : WizardState where
  companyName := ""
  companyId := none
  reportingPeriod := ""
  sessionId := none
  uploadedFile := none
  sheetNames := []
  workbookUrl := none
  layer1Results := []
  step1Approved := false
  layer2Results := []
  corrections := []
  step2Approved := false
  currentStep := 1
  activeSheetTab := ""
  selectedCell := none
  sidePanelOpen := false

/-! ## Correction operations (src/frontend/src/hooks/useWizardState.ts) -/

/-- `addCorrection`: find the index of an existing correction with the
same `fieldName`; replace it in place if present, append otherwise. -/
def addCorrection (s : WizardState) (c : Correction) : WizardState :=
  match s.corrections.findIdx? (fun x => x.fieldName == c.fieldName) with
  | some i => { s with corrections := s.corrections.set i c }
  | none => { s with corrections := s.corrections ++ [c] }

/-- `removeCorrection`: drop every correction for the given field. -/
def removeCorrection (s : WizardState) (fieldName : String) : WizardState :=
  { s with corrections := s.corrections.filter (fun c => c.fieldName != fieldName) }

/-- Recursive characterisation of the list produced by `addCorrection`:
replace the first entry sharing the field name, else append at the end. -/
def replaceOrAppend (l : List Correction) (c : Correction) : List Correction :=
  match l with
  | [] => [c]
  | x :: xs =>
    if x.fieldName == c.fieldName then c :: xs else x :: replaceOrAppend xs c

theorem findIdx?_go_eq (p : Correction → Bool) (l : List Correction) (n : Nat) :
    l.findIdx? p n = (l.findIdx? p).map (· + n) := by
  induction l generalizing n with
  | nil => simp [List.findIdx?]
  | cons x xs ih =>
    by_cases h : p x
    · simp [List.findIdx?_cons, h]
    · rw [List.findIdx?_cons, List.findIdx?_cons]
      simp only [h, if_false]
      rw [ih (n + 1), ih 1]
      cases xs.findIdx? p with
      | none => simp
      | some a => simp; omega

theorem append_of_findIdx?_none (l : List Correction) (c : Correction)
    (h : l.findIdx? (fun x => x.fieldName == c.fieldName) = none) :
    l ++ [c] = replaceOrAppend l c := by
  induction l with
  | nil => simp [replaceOrAppend]
  | cons y ys ihy =>
    rw [List.findIdx?_cons] at h
    by_cases hy : y.fieldName == c.fieldName
    · simp [hy] at h
    · simp only [hy, if_false] at h
      rw [findIdx?_go_eq] at h
      cases hys : ys.findIdx? (fun x => x.fieldName == c.fieldName) with
      | none => simp [replaceOrAppend, hy, ihy hys]
      | some j => rw [hys] at h; simp at h

theorem set_of_findIdx?_some (l : List Correction) (c : Correction) (i : Nat)
    (h : l.findIdx? (fun x => x.fieldName == c.fieldName) = some i) :
    l.set i c = replaceOrAppend l c := by
  induction l generalizing i with
  | nil => simp [List.findIdx?] at h
  | cons y ys ihy =>
    rw [List.findIdx?_cons] at h
    by_cases hy : y.fieldName == c.fieldName
    · simp only [hy, if_true, Option.some.injEq] at h
      subst h
      simp [replaceOrAppend, hy]
    · simp only [hy, if_false] at h
      rw [findIdx?_go_eq] at h
      cases hys : ys.findIdx? (fun x => x.fieldName == c.fieldName) with
      | none => rw [hys] at h; simp at h
      | some j =>
        rw [hys] at h
        have hi : i = j + 1 := by simp at h; omega
        subst hi
        simp [replaceOrAppend, hy, List.set_cons_succ, ihy j hys]

theorem addCorrection_corrections (s : WizardState) (c : Correction) :
    (addCorrection s c).corrections = replaceOrAppend s.corrections c := by
  unfold addCorrection
  cases hfi : s.corrections.findIdx? (fun x => x.fieldName == c.fieldName) with
  | none => simpa using append_of_findIdx?_none s.corrections c hfi
  | some i => simpa using set_of_findIdx?_some s.corrections c i hfi

/-- `addCorrection` changes the `corrections` field only. -/
theorem addCorrection_frame (s : WizardState) (c : Correction) :
    addCorrection s c = { s with corrections := replaceOrAppend s.corrections c } := by
  unfold addCorrection
  cases hfi : s.corrections.findIdx? (fun x => x.fieldName == c.fieldName) with
  | none =>
    dsimp only
    rw [append_of_findIdx?_none s.corrections c hfi]
  | some i =>
    dsimp only
    rw [set_of_findIdx?_some s.corrections c i hfi]

/-! ## Operation sequences over the wizard state -/

/-- The two correction-list operations exposed by the wizard context. -/
inductive WizardOp where
  | add (c : Correction)
  | remove (fieldName : String)
deriving DecidableEq, Repr

def applyOp (s : WizardState) : WizardOp → WizardState
  | .add c => addCorrection s c
  | .remove n => removeCorrection s n

/-- Run a sequence of add/remove operations left to right. -/
def runOps (s : WizardState) (ops : List WizardOp) : WizardState :=
  ops.foldl applyOp s

/-! ## Properties of the correction list operations -/

theorem replaceOrAppend_idem (l : List Correction) (c : Correction) :
    replaceOrAppend (replaceOrAppend l c) c = replaceOrAppend l c := by
  induction l with
  | nil => simp [replaceOrAppend]
  | cons x xs ih =>
    by_cases h : x.fieldName == c.fieldName
    · simp [replaceOrAppend, h]
    · simp [replaceOrAppend, h, ih]

theorem mem_replaceOrAppend_self (l : List Correction) (c : Correction) :
    c ∈ replaceOrAppend l c := by
  induction l with
  | nil => simp [replaceOrAppend]
  | cons x xs ih =>
    by_cases h : x.fieldName == c.fieldName <;>
      simp [replaceOrAppend, h, ih]

theorem find?_replaceOrAppend (l : List Correction) (c : Correction) :
    (replaceOrAppend l c).find? (fun x => x.fieldName == c.fieldName) = some c := by
  induction l with
  | nil => simp [replaceOrAppend, List.find?]
  | cons x xs ih =>
    by_cases h : x.fieldName == c.fieldName
    · simp [replaceOrAppend, h, List.find?]
    · simp [replaceOrAppend, List.find?_cons, h, ih]

theorem mem_map_fieldName_replaceOrAppend (l : List Correction) (c : Correction)
    (y : String) (hy : y ∈ (replaceOrAppend l c).map Correction.fieldName) :
    y ∈ l.map Correction.fieldName ∨ y = c.fieldName := by
  induction l with
  | nil =>
    simp only [replaceOrAppend, List.map_cons, List.map_nil,
      List.mem_singleton] at hy
    exact Or.inr hy
  | cons x xs ih =>
    by_cases h : x.fieldName == c.fieldName
    · simp only [replaceOrAppend, h, if_true, List.map_cons, List.mem_cons] at hy
      rcases hy with hy | hy
      · exact Or.inr hy
      · exact Or.inl (List.mem_cons_of_mem _ hy)
    · rw [show replaceOrAppend (x :: xs) c = x :: replaceOrAppend xs c by
        simp [replaceOrAppend, h]] at hy
      simp only [List.map_cons, List.mem_cons] at hy
      rcases hy with hy | hy
      · exact Or.inl (List.mem_cons.mpr (Or.inl hy))
      · rcases ih hy with h2 | h2
        · exact Or.inl (List.mem_cons_of_mem _ h2)
        · exact Or.inr h2

theorem nodup_replaceOrAppend (l : List Correction) (c : Correction)
    (h : (l.map Correction.fieldName).Nodup) :
    ((replaceOrAppend l c).map Correction.fieldName).Nodup := by
  induction l with
  | nil => simp [replaceOrAppend]
  | cons x xs ih =>
    simp only [List.map_cons, List.nodup_cons] at h
    by_cases hx : x.fieldName == c.fieldName
    · have hcx : c.fieldName = x.fieldName := (beq_iff_eq.mp hx).symm
      rw [show replaceOrAppend (x :: xs) c = c :: xs by simp [replaceOrAppend, hx]]
      simp only [List.map_cons, List.nodup_cons]
      exact ⟨by rw [hcx]; exact h.1, h.2⟩
    · rw [show replaceOrAppend (x :: xs) c = x :: replaceOrAppend xs c by
        simp [replaceOrAppend, hx]]
      simp only [List.map_cons, List.nodup_cons]
      refine ⟨fun hmem => ?_, ih h.2⟩
      rcases mem_map_fieldName_replaceOrAppend xs c _ hmem with h2 | h2
      · exact h.1 h2
      · exact hx (beq_iff_eq.mpr h2)

theorem map_if_fieldName_eq_self (l : List Correction) (c : Correction)
    (h : ∀ y ∈ l, y.fieldName ≠ c.fieldName) :
    l.map (fun x => if x.fieldName == c.fieldName then c else x) = l := by
  induction l with
  | nil => simp
  | cons x xs ih =>
    have hx : ¬(x.fieldName == c.fieldName) = true := by
      simpa using h x (List.mem_cons_self x xs)
    simp only [List.map_cons, if_neg hx]
    rw [ih (fun y hy => h y (List.mem_cons_of_mem x hy))]

theorem replaceOrAppend_eq_map (l : List Correction) (c c2 : Correction)
    (hnd : (l.map Correction.fieldName).Nodup) (hmem : c2 ∈ l)
    (hfn : c2.fieldName = c.fieldName) :
    replaceOrAppend l c =
      l.map (fun x => if x.fieldName == c.fieldName then c else x) := by
  induction l with
  | nil => simp at hmem
  | cons x xs ih =>
    simp only [List.map_cons, List.nodup_cons] at hnd
    by_cases hx : x.fieldName == c.fieldName
    · rw [show replaceOrAppend (x :: xs) c = c :: xs by simp [replaceOrAppend, hx]]
      have hxeq : x.fieldName = c.fieldName := beq_iff_eq.mp hx
      simp only [List.map_cons, if_pos hx]
      rw [map_if_fieldName_eq_self xs c]
      intro y hy hyc
      apply hnd.1
      rw [hxeq, ← hyc]
      exact List.mem_map_of_mem Correction.fieldName hy
    · rcases List.mem_cons.mp hmem with h2 | h2
      · exact absurd (beq_iff_eq.mpr (h2 ▸ hfn)) hx
      · rw [show replaceOrAppend (x :: xs) c = x :: replaceOrAppend xs c by
          simp [replaceOrAppend, hx]]
        simp only [List.map_cons, if_neg hx]
        rw [ih hnd.2 h2]

theorem removeCorrection_corrections (s : WizardState) (n : String) :
    (removeCorrection s n).corrections =
      s.corrections.filter (fun c => c.fieldName != n) := rfl

theorem nodup_runOps (ops : List WizardOp) (s : WizardState)
    (h : (s.corrections.map Correction.fieldName).Nodup) :
    (((runOps s ops).corrections.map Correction.fieldName)).Nodup := by
  induction ops generalizing s with
  | nil => exact h
  | cons op ops ih =>
    rw [runOps, List.foldl_cons]
    apply ih
    cases op with
    | add c =>
      rw [applyOp, addCorrection_corrections]
      exact nodup_replaceOrAppend s.corrections c h
    | remove n =>
      rw [applyOp, removeCorrection_corrections]
      exact List.Nodup.sublist
        (List.Sublist.map Correction.fieldName (List.filter_sublist _)) h

/-- Generic JS object lookup for string-keyed records. -/
def alookup {α : Type} (m : List (String × α)) (k : String) : Option α :=
  match m with
  | [] => none
  | (k', v) :: rest => if k' == k then some v else alookup rest k

/-- The `'income_statement' | 'balance_sheet'` union type. -/
inductive SheetType where
  | income_statement
  | balance_sheet
deriving DecidableEq, Repr

/-! ## String helpers mirroring the JS string built-ins -/

/-- `String.prototype.toLowerCase` (faithful on the ASCII sheet names and
keywords the wizard compares). -/
def jsToLower (s : String) : String :=
  ⟨s.data.map Char.toLower⟩

/-- `String.prototype.includes`: substring occurrence test. -/
def strContains (hay needle : List Char) : Bool :=
  match hay with
  | [] => needle.isEmpty
  | _ :: t => needle.isPrefixOf hay || strContains t needle

/-- ECMAScript WhiteSpace and LineTerminator code points recognised by
`trim` and skipped by `parseFloat`. -/
def jsIsWhitespace (c : Char) : Bool :=
  c == ' ' || c == '\t' || c == '\n' || c == '\r' || c == Char.ofNat 11 ||
    c == Char.ofNat 12 || c == Char.ofNat 160 || c == Char.ofNat 65279 ||
    c == Char.ofNat 8232 || c == Char.ofNat 8233

/-- `String.prototype.trim`. -/
def jsTrim (s : String) : String :=
  ⟨((s.data.dropWhile jsIsWhitespace).reverse.dropWhile jsIsWhitespace).reverse⟩

/-- A JS number produced by `parseFloat` when it is not `NaN`; decimal
literals are represented exactly as rationals. -/
inductive JsNumber where
  | finite (q : ℚ)
  | posInf
  | negInf
deriving DecidableEq, Repr

/-- Value of a digit string (most significant first). -/
def digitsVal (ds : List Char) : ℕ :=
  ds.foldl (fun acc d => 10 * acc + (d.toNat - 48)) 0

/-- `parseFloat`: skip leading whitespace, then read the longest prefix
that is a signed decimal literal (`Infinity` included); `none` models
`NaN`. -/
def jsParseFloat (s : String) : Option JsNumber :=
  let cs0 := s.data.dropWhile jsIsWhitespace
  let neg : Bool :=
    match cs0 with
    | '-' :: _ => true
    | _ => false
  let cs1 : List Char :=
    match cs0 with
    | '+' :: t => t
    | '-' :: t => t
    | t => t
  if "Infinity".data.isPrefixOf cs1 then
    some (if neg then .negInf else .posInf)
  else
    let intDigits := cs1.takeWhile Char.isDigit
    let rest1 := cs1.dropWhile Char.isDigit
    let fracDigits : List Char :=
      match rest1 with
      | '.' :: t => t.takeWhile Char.isDigit
      | _ => []
    let rest2 : List Char :=
      match rest1 with
      | '.' :: t => t.dropWhile Char.isDigit
      | t => t
    if intDigits.isEmpty && fracDigits.isEmpty then none
    else
      let mantissa : ℚ :=
        (digitsVal intDigits : ℚ) + (digitsVal fracDigits : ℚ) / ((10 : ℚ) ^ fracDigits.length)
      let expNeg : Bool :=
        match rest2 with
        | e :: '-' :: _ => e == 'e' || e == 'E'
        | _ => false
      let expDigits : List Char :=
        match rest2 with
        | e :: '+' :: t => if e == 'e' || e == 'E' then t.takeWhile Char.isDigit else []
        | e :: '-' :: t => if e == 'e' || e == 'E' then t.takeWhile Char.isDigit else []
        | e :: t => if e == 'e' || e == 'E' then t.takeWhile Char.isDigit else []
        | [] => []
      let scaled : ℚ :=
        if expNeg then mantissa / ((10 : ℚ) ^ digitsVal expDigits)
        else mantissa * ((10 : ℚ) ^ digitsVal expDigits)
      some (.finite ((if neg then (-1 : ℚ) else 1) * scaled))

/-! ## Step 1 (src/frontend/src/components/wizard/Step1Upload.tsx) -/

namespace Step1Upload

/-- `detectSheetType` in Step1Upload.tsx: both the keyword branch and the
fallthrough return `'income_statement'`. -/
def detectSheetType (name : String) : SheetType :=
  let lower := jsToLower name
  if strContains lower.data "income".data || strContains lower.data "p&l".data ||
      strContains lower.data "profit".data || strContains lower.data "pnl".data ||
      strContains lower.data "revenue".data then
    .income_statement
  else
    .income_statement

end Step1Upload

/-! ## Step 2 (src/frontend/src/components/wizard/Step2Classify.tsx) -/

namespace Step2Classify

/-- The regex test `/[_\- ]is$/i`: last three characters are a separator
(underscore, hyphen or space) followed by `is` case-insensitively. -/
def endsWithSepIS (name : String) : Bool :=
  match name.data.reverse with
  | s :: i :: sep :: _ =>
    (s == 's' || s == 'S') && (i == 'i' || i == 'I') &&
      (sep == '_' || sep == '-' || sep == ' ')
  | _ => false

/-- The regex test `/^is$/i`: the whole name is `is` case-insensitively. -/
def isExactlyIS (name : String) : Bool :=
  match name.data with
  | [i, s] => (i == 'i' || i == 'I') && (s == 's' || s == 'S')
  | _ => false

/-- The disjunction of income-statement keyword patterns tested by
`detectSheetType` in Step2Classify.tsx. -/
def isIncomeSheetName (name : String) : Bool :=
  let lower := jsToLower name
  strContains lower.data "income".data || strContains lower.data "p&l".data ||
    strContains lower.data "p_l".data || strContains lower.data "profit".data ||
    strContains lower.data "pnl".data || strContains lower.data "revenue".data ||
    strContains lower.data "i/s".data || endsWithSepIS name || isExactlyIS name

/-- `detectSheetType` in Step2Classify.tsx. -/
def detectSheetType (name : String) : SheetType :=
  if isIncomeSheetName name then .income_statement else .balance_sheet

/-- A row handed to `DataTable`; the formatted display string is elided,
`rawValue` carries the number the formatting is applied to. -/
structure DataTableRow where
  label : String
  rawValue : Option ℚ
  isStatementHeader : Bool
  isHeader : Bool
  isFlagged : Bool
  hasValidationFail : Bool
  isClickable : Bool
  isEdited : Bool
deriving DecidableEq, Repr

/-- `buildTemplateRows`: statement header, then per section an optional
header row and one data row per template field, with the correction (when
present) overriding the Layer 2 value. -/
def buildTemplateRows (sections : List TemplateSection) (statementLabel : String)
    (layer2 : Option Layer2Result) (corrections : List Correction)
    (_selectedCell : Option String) : List DataTableRow :=
  ⟨statementLabel, none, true, false, false, false, false, false⟩ ::
    sections.flatMap (fun sec =>
      (match sec.header with
       | some h => [(⟨h, none, false, true, false, false, false, false⟩ : DataTableRow)]
       | none => []) ++
      sec.fields.map (fun field =>
        let correction := corrections.find? (fun c => c.fieldName == field)
        let rawValue : Option ℚ :=
          match correction with
          | some c => some c.correctedValue
          | none =>
            match layer2 with
            | some l2 => (lookupVal l2.values field).join
            | none => none
        let isFlagged :=
          match layer2 with
          | some l2 => l2.flaggedFields.contains field
          | none => false
        let fieldChecks :=
          match layer2 with
          | some l2 => (alookup l2.fieldValidations field).getD []
          | none => []
        let hasValidationFail := fieldChecks.any (fun checkName =>
          match layer2 with
          | some l2 =>
            match alookup l2.validation checkName with
            | some chk => chk.passes == false
            | none => false
          | none => false)
        ⟨field, rawValue, false, false, isFlagged, hasValidationFail, true,
          correction.isSome⟩))

end Step2Classify

/-! ## Step 3 (src/frontend/src/components/wizard/Step3Finalize.tsx) -/

namespace Step3Finalize

/-- The record returned by `buildFinalValues`. -/
structure FinalValues where
  income_statement : ValueMap
  balance_sheet : ValueMap
deriving DecidableEq, Repr

/-- The loop body of `buildFinalValues`: write one correction's value
into the income-statement map when its field belongs to the
income-statement template sections, into the balance-sheet map
otherwise. -/
def routeCorrection (isFieldNames : List String) (acc : ValueMap × ValueMap)
    (c : Correction) : ValueMap × ValueMap :=
  if isFieldNames.contains c.fieldName then
    (setVal acc.1 c.fieldName (some c.correctedValue), acc.2)
  else
    (acc.1, setVal acc.2 c.fieldName (some c.correctedValue))

/-- `buildFinalValues`: copy each Layer 2 value map, then write every
correction's value on top, routed by membership of the field name in the
income-statement template sections. -/
def buildFinalValues (isLayer2 bsLayer2 : Option Layer2Result)
    (isSections : List TemplateSection) (corrections : List Correction) :
    FinalValues :=
  let isValues :=
    match isLayer2 with
    | some r => r.values
    | none => []
  let bsValues :=
    match bsLayer2 with
    | some r => r.values
    | none => []
  let isFieldNames := isSections.flatMap (fun s => s.fields)
  let final := corrections.foldl (routeCorrection isFieldNames)
    (isValues, bsValues)
  ⟨final.1, final.2⟩

/-- `finalValues.balance_sheet['Total Assets'] ?? 0`. -/
def totalAssets (fv : FinalValues) : ℚ :=
  ((lookupVal fv.balance_sheet "Total Assets").join).getD 0

/-- `finalValues.balance_sheet['Total Liabilities and Equity'] ?? 0`. -/
def totalLE (fv : FinalValues) : ℚ :=
  ((lookupVal fv.balance_sheet "Total Liabilities and Equity").join).getD 0

/-- `balanceDiff = totalAssets - totalLE`. -/
def balanceDiff (fv : FinalValues) : ℚ :=
  totalAssets fv - totalLE fv

/-- `isBalanced = Math.abs(balanceDiff) < 0.01`. -/
def isBalanced (fv : FinalValues) : Bool :=
  |balanceDiff fv| < (1 / 100 : ℚ)

/-- `new Set(corrections.map((c) => c.fieldName))`, used for membership. -/
def correctedFieldNames (corrections : List Correction) : List String :=
  corrections.map Correction.fieldName

/-- `new Set([...isFlagged, ...bsFlagged])`, used for membership and
deduplicated iteration. -/
def allFlaggedFields (isLayer2 bsLayer2 : Option Layer2Result) : List String :=
  (match isLayer2 with
   | some r => r.flaggedFields
   | none => []) ++
  (match bsLayer2 with
   | some r => r.flaggedFields
   | none => [])

/-- `flaggedRemaining`: flagged fields (as a set) without a correction. -/
def flaggedRemaining (isLayer2 bsLayer2 : Option Layer2Result)
    (corrections : List Correction) : ℕ :=
  (((allFlaggedFields isLayer2 bsLayer2).dedup).filter
    (fun f => !(correctedFieldNames corrections).contains f)).length

theorem route_lookup_fst_other (fields : List String) (acc : ValueMap × ValueMap)
    (c : Correction) (f : String) (hcf : c.fieldName ≠ f) :
    lookupVal (routeCorrection fields acc c).1 f = lookupVal acc.1 f := by
  unfold routeCorrection
  by_cases hco : fields.contains c.fieldName
  · rw [if_pos hco]
    exact lookupVal_setVal_other acc.1 _ hcf
  · rw [if_neg hco]

theorem route_lookup_snd_other (fields : List String) (acc : ValueMap × ValueMap)
    (c : Correction) (f : String) (hcf : c.fieldName ≠ f) :
    lookupVal (routeCorrection fields acc c).2 f = lookupVal acc.2 f := by
  unfold routeCorrection
  by_cases hco : fields.contains c.fieldName
  · rw [if_pos hco]
  · rw [if_neg hco]
    exact lookupVal_setVal_other acc.2 _ hcf

theorem foldl_route_lookup_of_not_corrected (fields : List String)
    (cs : List Correction) (acc : ValueMap × ValueMap) (f : String)
    (hf : ∀ c ∈ cs, c.fieldName ≠ f) :
    lookupVal (cs.foldl (routeCorrection fields) acc).1 f = lookupVal acc.1 f ∧
    lookupVal (cs.foldl (routeCorrection fields) acc).2 f = lookupVal acc.2 f := by
  induction cs generalizing acc with
  | nil => exact ⟨rfl, rfl⟩
  | cons c cs ih =>
    rw [List.foldl_cons]
    have hcf : c.fieldName ≠ f := hf c (List.mem_cons_self c cs)
    have htail := ih (routeCorrection fields acc c)
      (fun x hx => hf x (List.mem_cons_of_mem c hx))
    exact ⟨htail.1.trans (route_lookup_fst_other fields acc c f hcf),
      htail.2.trans (route_lookup_snd_other fields acc c f hcf)⟩

theorem foldl_route_lookup_of_corrected (fields : List String)
    (cs : List Correction) (acc : ValueMap × ValueMap) (c : Correction)
    (f : String) (hnd : (cs.map Correction.fieldName).Nodup) (hc : c ∈ cs)
    (hf : c.fieldName = f) :
    (fields.contains f = true →
      lookupVal (cs.foldl (routeCorrection fields) acc).1 f =
        some (some c.correctedValue) ∧
      lookupVal (cs.foldl (routeCorrection fields) acc).2 f = lookupVal acc.2 f) ∧
    (fields.contains f = false →
      lookupVal (cs.foldl (routeCorrection fields) acc).2 f =
        some (some c.correctedValue) ∧
      lookupVal (cs.foldl (routeCorrection fields) acc).1 f = lookupVal acc.1 f) := by
  induction cs generalizing acc with
  | nil => simp at hc
  | cons x xs ih =>
    simp only [List.map_cons, List.nodup_cons] at hnd
    rw [List.foldl_cons]
    rcases List.mem_cons.mp hc with hcx | hcx
    · subst hcx
      have hxs : ∀ y ∈ xs, y.fieldName ≠ f := by
        intro y hy hyf
        apply hnd.1
        rw [hf, ← hyf]
        exact List.mem_map_of_mem Correction.fieldName hy
      have htail := foldl_route_lookup_of_not_corrected fields xs
        (routeCorrection fields acc c) f hxs
      constructor
      · intro hco
        have hstep : routeCorrection fields acc c =
            (setVal acc.1 f (some c.correctedValue), acc.2) := by
          unfold routeCorrection
          rw [hf, if_pos hco]
        rw [hstep] at htail ⊢
        refine ⟨htail.1.trans ?_, htail.2.trans rfl⟩
        exact lookupVal_setVal_self acc.1 f _
      · intro hco
        have hstep : routeCorrection fields acc c =
            (acc.1, setVal acc.2 f (some c.correctedValue)) := by
          unfold routeCorrection
          rw [hf]
          rw [if_neg (by simpa using hco)]
        rw [hstep] at htail ⊢
        refine ⟨htail.2.trans ?_, htail.1.trans rfl⟩
        exact lookupVal_setVal_self acc.2 f _
    · have hxf : x.fieldName ≠ f := by
        intro hxf
        apply hnd.1
        rw [hxf, ← hf]
        exact List.mem_map_of_mem Correction.fieldName hcx
      have htail := ih (routeCorrection fields acc x) hnd.2 hcx
      constructor
      · intro hco
        exact ⟨(htail.1 hco).1,
          ((htail.1 hco).2).trans (route_lookup_snd_other fields acc x f hxf)⟩
      · intro hco
        exact ⟨(htail.2 hco).1,
          ((htail.2 hco).2).trans (route_lookup_fst_other fields acc x f hxf)⟩

/-- A row of the Step 3 output table; the formatted display string is
elided, `rawValue` carries the number it is produced from. -/
structure TableRow where
  label : String
  rawValue : Option ℚ
  isStatementHeader : Bool
  isHeader : Bool
  isBalanceCheck : Bool
  corrected : Bool
  flagged : Bool
deriving DecidableEq, Repr

/-- Data rows of one income-statement section in `buildRows`. -/
def sectionRowsIS (fv : FinalValues) (correctedNames flaggedNames : List String)
    (sec : TemplateSection) : List TableRow :=
  (match sec.header with
   | some h => [(⟨h, none, false, true, false, false, false⟩ : TableRow)]
   | none => []) ++
  sec.fields.map (fun field =>
    let rawValue := (lookupVal fv.income_statement field).join
    let corrected := correctedNames.contains field
    let flagged := flaggedNames.contains field && !corrected
    ⟨field, rawValue, false, false, false, corrected, flagged⟩)

/-- Data rows of one balance-sheet section in `buildRows`, with the
special `Check` row. -/
def sectionRowsBS (fv : FinalValues) (correctedNames flaggedNames : List String)
    (sec : TemplateSection) : List TableRow :=
  (match sec.header with
   | some h => [(⟨h, none, false, true, false, false, false⟩ : TableRow)]
   | none => []) ++
  sec.fields.map (fun field =>
    if field == "Check" then
      ⟨"Check", none, false, false, true, false, false⟩
    else
      let rawValue := (lookupVal fv.balance_sheet field).join
      let corrected := correctedNames.contains field
      let flagged := flaggedNames.contains field && !corrected
      ⟨field, rawValue, false, false, false, corrected, flagged⟩)

/-- `buildRows` in Step3Finalize.tsx. -/
def buildRows (isSections bsSections : List TemplateSection) (fv : FinalValues)
    (correctedNames flaggedNames : List String) : List TableRow :=
  ⟨"Income Statement", none, true, false, false, false, false⟩ ::
    (isSections.flatMap (sectionRowsIS fv correctedNames flaggedNames) ++
      ⟨"Balance Sheet", none, true, false, false, false, false⟩ ::
        bsSections.flatMap (sectionRowsBS fv correctedNames flaggedNames))

end Step3Finalize

/-! ## SidePanel (src/frontend/src/components/shared/SidePanel.tsx) -/

namespace SidePanel

/-- The argument of `onSaveCorrection`: `Omit<Correction, 'timestamp'>`,
except that the corrected value is whatever non-NaN number `parseFloat`
produced. -/
structure SaveCorrection where
  fieldName : String
  originalValue : ℚ
  correctedValue : JsNumber
  reasoning : String
  tag : CorrectionTag
deriving DecidableEq, Repr

/-- `handleSave`: bail out without a field, on a NaN parse, or on
whitespace-only reasoning; otherwise hand the correction up. -/
def handleSave (fieldName : Option String) (correctedValue : String)
    (correctionReasoning : String) (tag : CorrectionTag)
    (currentValue : Option ℚ) : Option SaveCorrection :=
  match fieldName with
  | none => none
  | some fn =>
    match jsParseFloat correctedValue with
    | none => none
    | some parsed =>
      if jsTrim correctionReasoning == "" then none
      else
        some { fieldName := fn, originalValue := currentValue.getD 0,
               correctedValue := parsed, reasoning := correctionReasoning,
               tag := tag }

end SidePanel

/-! ## Flag presentation lemmas -/

theorem sectionRowsIS_corrected_not_flagged (fv : Step3Finalize.FinalValues)
    (cn fn : List String) (sec : TemplateSection) :
    ∀ r ∈ Step3Finalize.sectionRowsIS fv cn fn sec,
      r.corrected = true → r.flagged = false := by
  intro r hr hcorr
  cases hh : sec.header with
  | some hd =>
    simp only [Step3Finalize.sectionRowsIS, hh, List.mem_append,
      List.mem_singleton, List.mem_map] at hr
    rcases hr with rfl | ⟨field, hf2, rfl⟩
    · simp at hcorr
    · simp only at hcorr ⊢
      simp only [Bool.and_eq_false_iff]
      exact Or.inr (by simpa using hcorr)
  | none =>
    simp only [Step3Finalize.sectionRowsIS, hh, List.mem_append,
      List.not_mem_nil, false_or, List.mem_map] at hr
    obtain ⟨field, hf2, rfl⟩ := hr
    simp only at hcorr ⊢
    simp only [Bool.and_eq_false_iff]
    exact Or.inr (by simpa using hcorr)

theorem sectionRowsBS_corrected_not_flagged (fv : Step3Finalize.FinalValues)
    (cn fn : List String) (sec : TemplateSection) :
    ∀ r ∈ Step3Finalize.sectionRowsBS fv cn fn sec,
      r.corrected = true → r.flagged = false := by
  intro r hr hcorr
  cases hh : sec.header with
  | some hd =>
    simp only [Step3Finalize.sectionRowsBS, hh, List.mem_append,
      List.mem_singleton, List.mem_map] at hr
    rcases hr with rfl | ⟨field, hf2, rfl⟩
    · simp at hcorr
    · by_cases hchk : field == "Check"
      · rw [if_pos hchk] at hcorr ⊢
      · rw [if_neg hchk] at hcorr ⊢
        simp only at hcorr ⊢
        simp only [Bool.and_eq_false_iff]
        exact Or.inr (by simpa using hcorr)
  | none =>
    simp only [Step3Finalize.sectionRowsBS, hh, List.mem_append,
      List.not_mem_nil, false_or, List.mem_map] at hr
    obtain ⟨field, hf2, rfl⟩ := hr
    by_cases hchk : field == "Check"
    · rw [if_pos hchk] at hcorr ⊢
    · rw [if_neg hchk] at hcorr ⊢
      simp only at hcorr ⊢
      simp only [Bool.and_eq_false_iff]
      exact Or.inr (by simpa using hcorr)

theorem buildRows_corrected_not_flagged
    (isSections bsSections : List TemplateSection)
    (fv : Step3Finalize.FinalValues) (cn fn : List String) :
    ∀ r ∈ Step3Finalize.buildRows isSections bsSections fv cn fn,
      r.corrected = true → r.flagged = false := by
  intro r hr hcorr
  simp only [Step3Finalize.buildRows, List.mem_cons, List.mem_append,
    List.mem_flatMap] at hr
  rcases hr with rfl | ⟨sec, hsec, hmem⟩ | rfl | ⟨sec, hsec, hmem⟩
  · simp at hcorr
  · exact sectionRowsIS_corrected_not_flagged fv cn fn sec r hmem hcorr
  · simp at hcorr
  · exact sectionRowsBS_corrected_not_flagged fv cn fn sec r hmem hcorr

theorem buildTemplateRows_isFlagged_const (sections : List TemplateSection)
    (lbl : String) (l2 : Option Layer2Result) (cs cs2 : List Correction)
    (sel sel2 : Option String) :
    (Step2Classify.buildTemplateRows sections lbl l2 cs sel).map
        (fun r => r.isFlagged) =
      (Step2Classify.buildTemplateRows sections lbl l2 cs2 sel2).map
        (fun r => r.isFlagged) := by
  unfold Step2Classify.buildTemplateRows
  simp only [List.map_cons, List.map_flatMap, List.map_append, List.map_map]
  rfl

/-! ## Rule merge engine (§4.4 of the spec; Layer B prompt) -/

namespace RuleMerge

/-- Modelled from the spec: the rule-merge engine itself is an external
LLM collaborator — the repository only carries its prompt contract
(`src/unnamed/part_000`, the Layer B markdown-integration prompt), not an
executable implementation. Following §3 and §4.4 of the spec, a rule
keeps an ordered set of referenced fields and its body text; the body is
kept as a list of verbatim text spans so that span preservation is
expressible. -/
structure ContextRule where
  referencedFields : List String
  text : List String
deriving DecidableEq, Repr

/-- Modelled from the spec: one section of the per-company rule store,
using the template's own section taxonomy. -/
structure RuleSection where
  name : String
  rules : List ContextRule
deriving DecidableEq, Repr

/-- Modelled from the spec: the per-company rule store, an ordered list
of sections. -/
abbrev RuleStore := List RuleSection

/-- Modelled from the spec: the three-way decision returned by the
external matcher, together with the data each action needs. `AMEND`
carries the spans interleaved into the existing rule's text
("append/interleave, don't replace"), one (possibly empty) insertion
slot before each retained span and one after the last. -/
inductive MergeAction where
  | DISCARD
  | AMEND (sectionName : String) (ruleIdx : ℕ) (inserts : List (List String))
  | APPEND (sectionName : String) (newRule : ContextRule)
deriving DecidableEq, Repr

/-- Interleave new spans between the retained spans of a rule body. -/
def interleaveSpans (spans : List String) (inserts : List (List String)) :
    List String :=
  match spans with
  | [] => inserts.flatten
  | t :: ts => inserts.headD [] ++ t :: interleaveSpans ts inserts.tail

/-- Amend the rule at one index of a section, leaving the rest in place. -/
def amendAt (rules : List ContextRule) (i : ℕ) (inserts : List (List String)) :
    List ContextRule :=
  match rules, i with
  | [], _ => []
  | r :: rs, 0 => { r with text := interleaveSpans r.text inserts } :: rs
  | r :: rs, n + 1 => r :: amendAt rs n inserts

/-- Modelled from the spec: `Merge(ruleStore, instruction) -> ruleStore'`
once the external decision is fixed. DISCARD returns the store
unchanged; AMEND rewrites one rule in place; APPEND adds a new rule to
the section named by the destination field, creating the section at the
end when absent. -/
def Merge (store : RuleStore) (a : MergeAction) : RuleStore :=
  match a with
  | .DISCARD => store
  | .AMEND secName i inserts =>
    store.map (fun s =>
      if s.name == secName then { s with rules := amendAt s.rules i inserts }
      else s)
  | .APPEND secName newRule =>
    if store.any (fun s => s.name == secName) then
      store.map (fun s =>
        if s.name == secName then { s with rules := s.rules ++ [newRule] }
        else s)
    else store ++ [⟨secName, [newRule]⟩]

theorem mem_interleaveSpans (spans : List String) (inserts : List (List String)) :
    ∀ t ∈ spans, t ∈ interleaveSpans spans inserts := by
  induction spans generalizing inserts with
  | nil => intro t ht; simp at ht
  | cons x xs ih =>
    intro t ht
    rcases List.mem_cons.mp ht with h | h
    · subst h
      simp [interleaveSpans]
    · have := ih inserts.tail t h
      simp only [interleaveSpans, List.mem_append, List.mem_cons]
      exact Or.inr (Or.inr this)

theorem mem_amendAt (rules : List ContextRule) (i : ℕ)
    (inserts : List (List String)) :
    ∀ r ∈ rules, ∃ r' ∈ amendAt rules i inserts, ∀ t ∈ r.text, t ∈ r'.text := by
  induction rules generalizing i with
  | nil => intro r hr; simp at hr
  | cons x xs ih =>
    intro r hr
    cases i with
    | zero =>
      rcases List.mem_cons.mp hr with h | h
      · subst h
        exact ⟨_, List.mem_cons_self _ _, mem_interleaveSpans r.text inserts⟩
      · exact ⟨r, List.mem_cons_of_mem _ h, fun t ht => ht⟩
    | succ n =>
      rcases List.mem_cons.mp hr with h | h
      · subst h
        exact ⟨r, List.mem_cons_self _ _, fun t ht => ht⟩
      · obtain ⟨r', hr', hsub⟩ := ih n r h
        exact ⟨r', List.mem_cons_of_mem _ hr', hsub⟩

end RuleMerge

/-! ## Concrete fixtures -/

/-- A small Layer 2 income-statement snapshot whose `Gross Profit` was
derived as `Total Revenue - COGS`. -/
def demoLayer2 : Layer2Result where
  statementType := "income_statement"
  values := [("Total Revenue", some 100), ("COGS", some 40),
    ("Gross Profit", some 60)]
  reasoning := [("Gross Profit", "Total Revenue (100) - COGS (40) = 60")]
  validation := []
  flaggedFields := []
  fieldValidations := []

/-- The wizard state holding `demoLayer2`, before any correction. -/
def demoState : WizardState :=
  { defaultState with layer2Results := [("income_statement", demoLayer2)] }

/-- An analyst correction lowering `COGS` from 40 to 10. -/
def cogsCorrection : Correction where
  fieldName := "COGS"
  originalValue := 40
  correctedValue := 10
  reasoning := some "freight was misclassified into COGS"
  tag := .one_off_error
  timestamp := "2024-03-31T00:00:00Z"

/-- A second correction for the same `COGS` field. -/
def cogsCorrection2 : Correction where
  fieldName := "COGS"
  originalValue := 40
  correctedValue := 12
  reasoning := some "supersedes the earlier fix"
  tag := .company_specific
  timestamp := "2024-04-01T00:00:00Z"

/-! ## Claims -/

/-- C1 (counterexample): applying a correction neither re-derives the
snapshot nor touches anything outside the corrections list. In the
concrete state below, correcting `COGS` from 40 to 10 leaves
`layer2Results` — including the stale derived `Gross Profit` of 60,
which a re-derivation would have recomputed to 100 - 10 — exactly as it
was, and the wizard state carries no version counter at all. -/
theorem addCorrection_no_rederivation_cex :
    (addCorrection demoState cogsCorrection).layer2Results =
        demoState.layer2Results ∧
    alookup (addCorrection demoState cogsCorrection).layer2Results
        "income_statement" = some demoLayer2 ∧
    lookupVal demoLayer2.values "Gross Profit" = some (some 60) ∧
    ¬(60 : ℚ) = 100 - 10 := by
  refine ⟨?_, ?_, ?_, ?_⟩
  · rw [addCorrection_frame]
  · rw [addCorrection_frame]
    simp [demoState, alookup]
  · simp [demoLayer2, lookupVal]
  · norm_num

/-- C1 (amended): `addCorrection` changes only the `corrections` field of
the wizard state — no version counter is bumped and no re-derivation is
triggered — and the submitted correction is stored in that list. -/
theorem addCorrection_updates_only_corrections (s : WizardState) (c : Correction) :
    addCorrection s c = { s with corrections := (addCorrection s c).corrections } ∧
    c ∈ (addCorrection s c).corrections := by
  constructor
  · rw [addCorrection_frame]
  · rw [addCorrection_corrections]
    exact mem_replaceOrAppend_self s.corrections c

/-- C2: `addCorrection` is idempotent — applying the same correction
twice yields a state identical to applying it once. -/
theorem addCorrection_idempotent (s : WizardState) (c : Correction) :
    addCorrection (addCorrection s c) c = addCorrection s c := by
  rw [addCorrection_frame (addCorrection s c) c, addCorrection_corrections,
    addCorrection_frame s c, replaceOrAppend_idem]

/-- C3: starting from the initial wizard state, any sequence of
`addCorrection`/`removeCorrection` operations keeps at most one
correction per field name, and adding a correction for a field that
already has one overwrites that entry in place (the list is rewritten
pointwise, replacing exactly the entry with the matching field name). -/
theorem corrections_unique_per_field (ops : List WizardOp) :
    (((runOps defaultState ops).corrections.map Correction.fieldName).Nodup) ∧
    (∀ c c2 : Correction, c2 ∈ (runOps defaultState ops).corrections →
      c2.fieldName = c.fieldName →
      (addCorrection (runOps defaultState ops) c).corrections =
        (runOps defaultState ops).corrections.map
          (fun x => if x.fieldName == c.fieldName then c else x)) := by
  have hnd : ((runOps defaultState ops).corrections.map Correction.fieldName).Nodup :=
    nodup_runOps ops defaultState (by simp [defaultState])
  refine ⟨hnd, ?_⟩
  intro c c2 hmem hfn
  rw [addCorrection_corrections]
  exact replaceOrAppend_eq_map _ c c2 hnd hmem hfn

/-- Witness for C3 at a concrete operation sequence: after adding a
`COGS` correction to the initial state, adding a second `COGS`
correction overwrites the first in place. -/
theorem corrections_unique_per_field_witness :
    (((runOps defaultState [WizardOp.add cogsCorrection]).corrections.map
        Correction.fieldName).Nodup) ∧
    (addCorrection (runOps defaultState [WizardOp.add cogsCorrection])
        cogsCorrection2).corrections =
      (runOps defaultState [WizardOp.add cogsCorrection]).corrections.map
        (fun x => if x.fieldName == cogsCorrection2.fieldName then cogsCorrection2
          else x) := by
  refine ⟨(corrections_unique_per_field [WizardOp.add cogsCorrection]).1,
    (corrections_unique_per_field [WizardOp.add cogsCorrection]).2
      cogsCorrection2 cogsCorrection ?_ rfl⟩
  simp [runOps, applyOp, addCorrection, defaultState, List.findIdx?]

/-- C6 (counterexample): the code has no snapshot version and no
rejection path — submitting a correction always mutates the corrections
list, so the spec scenario "stale correction ⇒ `StaleVersion` failure,
no mutation" is false of the code at this input. -/
theorem stale_version_never_rejected_cex :
    (addCorrection demoState cogsCorrection).corrections ≠
      demoState.corrections := by
  rw [addCorrection_corrections]
  simp [demoState, defaultState, replaceOrAppend]

/-- C6 (amended): `addCorrection` accepts every submitted correction
unconditionally — there is no version comparison and no failure value;
the correction is always found in the resulting list under its field
name. -/
theorem addCorrection_always_applies (s : WizardState) (c : Correction) :
    (addCorrection s c).corrections.find?
      (fun x => x.fieldName == c.fieldName) = some c := by
  rw [addCorrection_corrections]
  exact find?_replaceOrAppend s.corrections c

/-- A balance sheet whose only total is `Total Assets = 0.01`, putting
the balance difference exactly on the tolerance boundary. -/
def boundaryBS : Layer2Result where
  statementType := "balance_sheet"
  values := [("Total Assets", some (1 / 100))]
  reasoning := []
  validation := []
  flaggedFields := []
  fieldValidations := []

/-- The spec scenario balance sheet: assets 8,524,798.71 against
liabilities 5,124,837.35 plus equity 3,399,961.36. -/
def scenarioBS : Layer2Result where
  statementType := "balance_sheet"
  values := [("Total Assets", some 8524798.71),
    ("Total Liabilities", some 5124837.35),
    ("Total Equity", some 3399961.36),
    ("Total Liabilities and Equity", some 8524798.71)]
  reasoning := []
  validation := []
  flaggedFields := []
  fieldValidations := []

/-- C4 (counterexample): when the balance difference is exactly the
0.01 tolerance, the claim deems the sheet balanced (at most the
tolerance) but the code reports imbalanced — `isBalanced` uses a strict
`<` comparison. -/
theorem balance_tolerance_boundary_cex :
    Step3Finalize.isBalanced
        (Step3Finalize.buildFinalValues none (some boundaryBS) [] []) = false ∧
    |Step3Finalize.balanceDiff
        (Step3Finalize.buildFinalValues none (some boundaryBS) [] [])| ≤
      (1 / 100 : ℚ) := by
  have hdiff : Step3Finalize.balanceDiff
      (Step3Finalize.buildFinalValues none (some boundaryBS) [] []) = 1 / 100 := by
    simp [Step3Finalize.buildFinalValues, Step3Finalize.balanceDiff,
      Step3Finalize.totalAssets, Step3Finalize.totalLE, boundaryBS, lookupVal]
  have habs : |(1 / 100 : ℚ)| = 1 / 100 := abs_of_nonneg (by norm_num)
  constructor
  · simp only [Step3Finalize.isBalanced, hdiff, habs,
      decide_eq_false_iff_not]
    exact lt_irrefl _
  · rw [hdiff, habs]

/-- C4 (amended): the top-level balance check is evaluated on the
finalized balance-sheet map with a missing total read as 0, and reports
balanced exactly when the absolute difference between Total Assets and
Total Liabilities and Equity is strictly less than 0.01; on the spec
scenario values the check passes (the liabilities plus equity sum to the
assets exactly). -/
theorem isBalanced_strict_tolerance :
    (∀ fv : Step3Finalize.FinalValues,
      Step3Finalize.isBalanced fv = true ↔
        |(((lookupVal fv.balance_sheet "Total Assets").join).getD 0) -
            (((lookupVal fv.balance_sheet
                "Total Liabilities and Equity").join).getD 0)| <
          (1 / 100 : ℚ)) ∧
    ((5124837.35 : ℚ) + 3399961.36 = 8524798.71) ∧
    Step3Finalize.isBalanced
      (Step3Finalize.buildFinalValues none (some scenarioBS) [] []) = true := by
  refine ⟨?_, by norm_num, ?_⟩
  · intro fv
    simp [Step3Finalize.isBalanced, Step3Finalize.balanceDiff,
      Step3Finalize.totalAssets, Step3Finalize.totalLE]
  · have hdiff : Step3Finalize.balanceDiff
        (Step3Finalize.buildFinalValues none (some scenarioBS) [] []) = 0 := by
      simp [Step3Finalize.buildFinalValues, Step3Finalize.balanceDiff,
        Step3Finalize.totalAssets, Step3Finalize.totalLE, scenarioBS, lookupVal]
    simp only [Step3Finalize.isBalanced, hdiff, decide_eq_true_eq]
    norm_num

/-- An income-statement Layer 2 result that flagged `Net Revenue`. -/
def flaggedLayer2 : Layer2Result where
  statementType := "income_statement"
  values := [("Net Revenue", some 100)]
  reasoning := []
  validation := []
  flaggedFields := ["Net Revenue"]
  fieldValidations := []

/-- An analyst correction of the flagged `Net Revenue` field. -/
def revenueCorrection : Correction where
  fieldName := "Net Revenue"
  originalValue := 100
  correctedValue := 120
  reasoning := some "per bank statement"
  tag := .one_off_error
  timestamp := "2024-03-31T00:00:00Z"

/-- The single-section income-statement template used in fixtures. -/
def demoSections : List TemplateSection := [⟨none, ["Net Revenue"]⟩]

/-- C5 (counterexample): in the Step 2 review view a corrected field is
still presented as flagged — the row built for the corrected `Net
Revenue` field carries both the edited and the flagged marker. -/
theorem step2_flag_not_cleared_cex :
    (Step2Classify.buildTemplateRows demoSections "Income Statement"
        (some flaggedLayer2) [revenueCorrection] none).any
      (fun r => r.label == "Net Revenue" && r.isEdited && r.isFlagged) = true := by
  decide

/-- C5 (amended): a correction clears the flagged presentation in the
Step 3 finalize view — a corrected row is never marked flagged and a
corrected field is excluded from the flags-remaining count — but the
Step 2 review view's flag markers are independent of the corrections
list, so a corrected field stays marked flagged there. -/
theorem correction_clears_flag_in_finalize :
    (∀ (isSections bsSections : List TemplateSection)
       (fv : Step3Finalize.FinalValues) (cn fn : List String),
       ∀ r ∈ Step3Finalize.buildRows isSections bsSections fv cn fn,
         r.corrected = true → r.flagged = false) ∧
    (∀ (isL2 bsL2 : Option Layer2Result) (cs : List Correction) (f : String),
       f ∈ Step3Finalize.correctedFieldNames cs →
       f ∉ ((Step3Finalize.allFlaggedFields isL2 bsL2).dedup).filter
         (fun g => !(Step3Finalize.correctedFieldNames cs).contains g)) ∧
    (∀ (sections : List TemplateSection) (lbl : String)
       (l2 : Option Layer2Result) (cs cs2 : List Correction)
       (sel sel2 : Option String),
       (Step2Classify.buildTemplateRows sections lbl l2 cs sel).map
           (fun r => r.isFlagged) =
         (Step2Classify.buildTemplateRows sections lbl l2 cs2 sel2).map
           (fun r => r.isFlagged)) := by
  refine ⟨buildRows_corrected_not_flagged, ?_, buildTemplateRows_isFlagged_const⟩
  intro isL2 bsL2 cs f hf hmem
  rw [List.mem_filter] at hmem
  simp at hmem
  exact hmem.2 hf

/-- Witness for C5 at concrete inputs: the corrected `Net Revenue` row
of the finalize table is not flagged, and the corrected field does not
enter the flags-remaining filter. -/
theorem correction_clears_flag_in_finalize_witness :
    (⟨"Net Revenue", some (120 : ℚ), false, false, false, true, false⟩ :
        Step3Finalize.TableRow).flagged = false ∧
    "Net Revenue" ∉ ((Step3Finalize.allFlaggedFields (some flaggedLayer2)
        none).dedup).filter
      (fun g => !(Step3Finalize.correctedFieldNames
        [revenueCorrection]).contains g) := by
  constructor
  · exact correction_clears_flag_in_finalize.1 demoSections []
      (Step3Finalize.buildFinalValues (some flaggedLayer2) none demoSections
        [revenueCorrection])
      ["Net Revenue"] ["Net Revenue"] _ (by decide) rfl
  · exact correction_clears_flag_in_finalize.2.1 (some flaggedLayer2) none
      [revenueCorrection] "Net Revenue" (by decide)

/-- C7: `handleSave` produces a correction exactly when a field is
selected, the entered value parses as a number, and the reasoning is
non-empty after trimming; the record saved carries the parsed value and
the untrimmed reasoning text. -/
theorem handleSave_requires_parse_and_reasoning (fn : Option String)
    (v r : String) (t : CorrectionTag) (cv : Option ℚ) :
    ((SidePanel.handleSave fn v r t cv).isSome =
      (fn.isSome && (jsParseFloat v).isSome && !(jsTrim r == ""))) ∧
    (∀ d : SidePanel.SaveCorrection, SidePanel.handleSave fn v r t cv = some d →
      some d.correctedValue = jsParseFloat v ∧ d.reasoning = r ∧ d.tag = t ∧
        d.originalValue = cv.getD 0 ∧ some d.fieldName = fn) := by
  cases fn with
  | none => simp [SidePanel.handleSave]
  | some f =>
    cases hp : jsParseFloat v with
    | none => simp [SidePanel.handleSave, hp]
    | some p =>
      by_cases ht : jsTrim r == ""
      · simp [SidePanel.handleSave, hp, ht]
      · simp only [SidePanel.handleSave, hp, if_neg ht]
        constructor
        · simp [ht]
        · intro d hd
          cases hd
          simp

/-- Witness for C7 at concrete inputs: with field `COGS`, entered value
`12.5` and non-blank reasoning, a correction is produced and carries the
parsed value 12.5. -/
theorem handleSave_requires_parse_and_reasoning_witness :
    ((SidePanel.handleSave (some "COGS") "12.5" " too high "
        CorrectionTag.one_off_error (some 40)).isSome =
      ((some "COGS" : Option String).isSome && (jsParseFloat "12.5").isSome &&
        !(jsTrim " too high " == ""))) ∧
    (some (SidePanel.SaveCorrection.mk "COGS" 40 (JsNumber.finite (25 / 2))
        " too high " CorrectionTag.one_off_error).correctedValue =
      jsParseFloat "12.5") := by
  have hp : jsParseFloat "12.5" = some (JsNumber.finite (25 / 2)) := by
    simp [jsParseFloat, jsIsWhitespace, digitsVal, Char.isDigit]
    norm_num
  have h := handleSave_requires_parse_and_reasoning (some "COGS") "12.5"
    " too high " CorrectionTag.one_off_error (some 40)
  refine ⟨h.1, ?_⟩
  refine (h.2 (SidePanel.SaveCorrection.mk "COGS" 40 (JsNumber.finite (25 / 2))
    " too high " CorrectionTag.one_off_error) ?_).1
  simp [SidePanel.handleSave, hp]
  decide

/-- C8: the rule-merge operation never removes prior rule content — for
every store and every possible merge decision (DISCARD, AMEND or
APPEND), each text span of each rule that was in the store before the
call is still present, in a rule of a section with the same name. -/
theorem merge_preserves_rule_text_spans (store : RuleMerge.RuleStore)
    (a : RuleMerge.MergeAction) :
    ∀ s ∈ store, ∀ r ∈ s.rules, ∀ span ∈ r.text,
      ∃ s2 ∈ RuleMerge.Merge store a, s2.name = s.name ∧
        ∃ r2 ∈ s2.rules, span ∈ r2.text := by
  intro s hs r hr span hspan
  cases a with
  | DISCARD => exact ⟨s, hs, rfl, r, hr, hspan⟩
  | AMEND secName i inserts =>
    unfold RuleMerge.Merge
    dsimp only
    by_cases hname : s.name == secName
    · have hm := List.mem_map_of_mem (fun s =>
        if s.name == secName then
          { s with rules := RuleMerge.amendAt s.rules i inserts } else s) hs
      dsimp only at hm
      rw [if_pos hname] at hm
      obtain ⟨r2, hr2, hsub⟩ := RuleMerge.mem_amendAt s.rules i inserts r hr
      exact ⟨_, hm, rfl, r2, hr2, hsub span hspan⟩
    · have hm := List.mem_map_of_mem (fun s =>
        if s.name == secName then
          { s with rules := RuleMerge.amendAt s.rules i inserts } else s) hs
      dsimp only at hm
      rw [if_neg hname] at hm
      exact ⟨s, hm, rfl, r, hr, hspan⟩
  | APPEND secName newRule =>
    unfold RuleMerge.Merge
    dsimp only
    by_cases hexists : store.any (fun s => s.name == secName)
    · rw [if_pos hexists]
      by_cases hname : s.name == secName
      · have hm := List.mem_map_of_mem (fun s =>
          if s.name == secName then { s with rules := s.rules ++ [newRule] }
          else s) hs
        dsimp only at hm
        rw [if_pos hname] at hm
        exact ⟨_, hm, rfl, r, List.mem_append_left _ hr, hspan⟩
      · have hm := List.mem_map_of_mem (fun s =>
          if s.name == secName then { s with rules := s.rules ++ [newRule] }
          else s) hs
        dsimp only at hm
        rw [if_neg hname] at hm
        exact ⟨s, hm, rfl, r, hr, hspan⟩
    · rw [if_neg hexists]
      exact ⟨s, List.mem_append_left _ hs, rfl, r, hr, hspan⟩

/-- The standing SGA rule of the merge fixtures. -/
def demoRule : RuleMerge.ContextRule where
  referencedFields := ["Administrative Expenses"]
  text := ["Classify the combined SGA Expenses line as Administrative Expenses."]

/-- A one-section rule store holding `demoRule`. -/
def demoStore : RuleMerge.RuleStore := [⟨"Operating Expenses", [demoRule]⟩]

/-- An AMEND decision adding a sub-line clause to `demoRule`. -/
def demoAmend : RuleMerge.MergeAction :=
  .AMEND "Operating Expenses" 0
    [[], ["When a Marketing Costs sub-line is present, split it out."]]

/-- Witness for C8 at concrete inputs: after amending the SGA rule, its
original text span is still present in the store. -/
theorem merge_preserves_rule_text_spans_witness :
    ∃ s2 ∈ RuleMerge.Merge demoStore demoAmend,
      s2.name = "Operating Expenses" ∧ ∃ r2 ∈ s2.rules,
        "Classify the combined SGA Expenses line as Administrative Expenses." ∈
          r2.text := by
  have h := merge_preserves_rule_text_spans demoStore demoAmend
    ⟨"Operating Expenses", [demoRule]⟩ (by decide) demoRule (by decide)
    "Classify the combined SGA Expenses line as Administrative Expenses."
    (by decide)
  simpa using h

/-- C9: finalization applies corrections as a pure overlay with no
recomputation — at a field with no correction both finalized maps agree
with the plain Layer 2 maps, and the unique correction for a field
writes exactly its corrected value, into the income-statement map when
the field belongs to the income-statement template sections and into
the balance-sheet map otherwise, leaving the other map unchanged at
that field. -/
theorem buildFinalValues_pure_overlay (isL2 bsL2 : Option Layer2Result)
    (isSections : List TemplateSection) (cs : List Correction)
    (hnd : (cs.map Correction.fieldName).Nodup) (field : String) :
    ((∀ c ∈ cs, c.fieldName ≠ field) →
      lookupVal (Step3Finalize.buildFinalValues isL2 bsL2 isSections
          cs).income_statement field =
        lookupVal (Step3Finalize.buildFinalValues isL2 bsL2 isSections
          []).income_statement field ∧
      lookupVal (Step3Finalize.buildFinalValues isL2 bsL2 isSections
          cs).balance_sheet field =
        lookupVal (Step3Finalize.buildFinalValues isL2 bsL2 isSections
          []).balance_sheet field) ∧
    (∀ c ∈ cs, c.fieldName = field →
      ((isSections.flatMap (fun sec => sec.fields)).contains field = true →
        lookupVal (Step3Finalize.buildFinalValues isL2 bsL2 isSections
            cs).income_statement field = some (some c.correctedValue) ∧
        lookupVal (Step3Finalize.buildFinalValues isL2 bsL2 isSections
            cs).balance_sheet field =
          lookupVal (Step3Finalize.buildFinalValues isL2 bsL2 isSections
            []).balance_sheet field) ∧
      ((isSections.flatMap (fun sec => sec.fields)).contains field = false →
        lookupVal (Step3Finalize.buildFinalValues isL2 bsL2 isSections
            cs).balance_sheet field = some (some c.correctedValue) ∧
        lookupVal (Step3Finalize.buildFinalValues isL2 bsL2 isSections
            cs).income_statement field =
          lookupVal (Step3Finalize.buildFinalValues isL2 bsL2 isSections
            []).income_statement field)) := by
  constructor
  · intro hnc
    have h := Step3Finalize.foldl_route_lookup_of_not_corrected
      (isSections.flatMap (fun sec => sec.fields)) cs
      ((match isL2 with | some r => r.values | none => []),
       (match bsL2 with | some r => r.values | none => [])) field hnc
    exact ⟨h.1, h.2⟩
  · intro c hc hfield
    have h := Step3Finalize.foldl_route_lookup_of_corrected
      (isSections.flatMap (fun sec => sec.fields)) cs
      ((match isL2 with | some r => r.values | none => []),
       (match bsL2 with | some r => r.values | none => [])) c field hnd hc hfield
    exact ⟨fun hco => (h.1 hco), fun hco => (h.2 hco)⟩

/-- Witness for C9 at concrete inputs: the `Net Revenue` correction
lands in the finalized income-statement map with its corrected value,
and the balance-sheet map is untouched at that field. -/
theorem buildFinalValues_pure_overlay_witness :
    lookupVal (Step3Finalize.buildFinalValues (some flaggedLayer2) none
        demoSections [revenueCorrection]).income_statement "Net Revenue" =
      some (some 120) ∧
    lookupVal (Step3Finalize.buildFinalValues (some flaggedLayer2) none
        demoSections [revenueCorrection]).balance_sheet "Net Revenue" =
      lookupVal (Step3Finalize.buildFinalValues (some flaggedLayer2) none
        demoSections []).balance_sheet "Net Revenue" := by
  have h := (buildFinalValues_pure_overlay (some flaggedLayer2) none
    demoSections [revenueCorrection] (by decide) "Net Revenue").2
    revenueCorrection (by decide) rfl
  exact h.1 (by decide)

/-- C10: Step 1's automatic sheet-type detection classifies every sheet
name as an income statement (its fallthrough default equals its match
branch), whereas Step 2's detection of the same name returns
balance sheet exactly when the name matches none of its
income-statement keyword patterns. -/
theorem detectSheetType_step1_constant_step2_default (name : String) :
    Step1Upload.detectSheetType name = SheetType.income_statement ∧
    (Step2Classify.detectSheetType name = SheetType.balance_sheet ↔
      Step2Classify.isIncomeSheetName name = false) := by
  constructor
  · simp [Step1Upload.detectSheetType]
  · unfold Step2Classify.detectSheetType
    by_cases h : Step2Classify.isIncomeSheetName name
    · rw [if_pos h]
      simp [h]
    · rw [if_neg h]
      simp [Bool.not_eq_true] at h
      simp [h]

end FinParse
